import Mathlib

/-!
Shallow embedding of the Groth16 proof-aggregation module of bellperson
(src/groth16/aggregate/prove.rs and src/groth16/aggregate/verify.rs),
with theorems settling the specification claims about it.

Conventions used throughout:
* machine integers (`usize` lengths, nonces) are `Nat`;
* the scalar field `E::Fr` is an abstract `Field F` with decidable equality,
  instantiated at `ℚ` in concrete witnesses;
* fallible Rust code is `Except SynthesisError`;
* a Rust function that can also fail to return normally (an `unwrap` of `None`
  or a `loop` with no reachable `break`) is modelled in the `Outcome` monad.

Parts of the repository that the claims depend on but whose files are not in
the source tree (commit.rs, poly.rs, accumulator.rs, the module root providing
`structured_scalar_power`) are modelled from the specification; each such
definition carries a doc comment starting with `Modelled from the spec:`.
-/

namespace Bellperson

/-- Error enumeration of the library as used by the aggregation module
(`SynthesisError` variants, spec section 7). -/
inductive SynthesisError
  | MalformedSrs
  | MalformedProofs
  | MalformedVerifyingKey
  | UnexpectedIdentity
  deriving DecidableEq

/-- Observable outcome of running a Rust function: it returns a value, it
never returns because an `unwrap`/`assert` aborts the thread, or it never
returns because it enters a loop with no reachable `break`. -/
inductive Outcome (α : Type)
  | ret : α → Outcome α
  | panic : Outcome α
  | diverge : Outcome α
  deriving DecidableEq

/-- Strict sequencing of two Rust computations: a panic or divergence in the
first one propagates. -/
def Outcome.bind {α β : Type} : Outcome α → (α → Outcome β) → Outcome β
  | .ret a, k => k a
  | .panic, _ => .panic
  | .diverge, _ => .diverge

section PolyUtils

variable {F : Type} [CommRing F]

/-- Tail of the evaluation loop of
`polynomial_evaluation_product_form_from_transcript` (prove.rs lines 531-534):
`res` accumulates the product, `p` is the running power `(rz)^(2^i)` which is
squared after every factor. -/
def prod_form_aux : List F → F → F → F
  | [], res, _ => res
  | x :: rest, res, p => prod_form_aux rest (res * (1 + x * p)) (p * p)

/-- `polynomial_evaluation_product_form_from_transcript` (prove.rs lines
516-537). Evaluates `∏ (1 + transcript[i] * (r*z)^(2^i))` by repeated
squaring of `z * r_shift`. The Rust code indexes `transcript[0]` first and
would abort on an empty transcript; the empty case here returns the junk
value `0` and every theorem about this function assumes a non-empty
transcript. -/
def polynomial_evaluation_product_form_from_transcript
    (transcript : List F) (z r_shift : F) : F :=
  match transcript with
  | [] => 0
  | x0 :: rest => prod_form_aux rest (1 + x0 * (z * r_shift)) ((z * r_shift) * (z * r_shift))

/-- Loop of `polynomial_coefficients_from_transcript` (prove.rs lines
551-565): at each step the current coefficient list is extended by a copy of
itself scaled by `x * p`, and the running power `p` (which starts at
`r_shift`) is squared. In the Rust code the inner `for j in 0..n` loop pushes
`coefficients[j] * (x * power_2_r)` for the `n` coefficients present before
the step, which is exactly the appended map below. -/
def poly_coeffs_aux : List F → List F → F → List F
  | [], coeffs, _ => coeffs
  | x :: rest, coeffs, p =>
    poly_coeffs_aux rest (coeffs ++ coeffs.map (fun c => c * (x * p))) (p * p)

/-- `polynomial_coefficients_from_transcript` (prove.rs lines 551-565). -/
def polynomial_coefficients_from_transcript (transcript : List F) (r_shift : F) : List F :=
  poly_coeffs_aux transcript [1] r_shift

/-- Evaluation of a dense coefficient list at a point, lowest degree first
(Horner form). This is the second definition required by the round-trip
claim: it follows the words of the spec ("evaluating the coefficient list at
`z`"), not a function of the source. -/
def eval_poly_at : List F → F → F
  | [], _ => 0
  | c :: cs, z => c + z * eval_poly_at cs z

/-- Mathematical normal form of the transcript product
`∏ (1 + t[i] * w^(2^i))`, used to relate the two source functions. -/
def poly_prod_form : List F → F → F
  | [], _ => 1
  | x :: rest, w => (1 + x * w) * poly_prod_form rest (w * w)

theorem prod_form_aux_eq (t : List F) :
    ∀ res p : F, prod_form_aux t res p = res * poly_prod_form t p := by
  induction t with
  | nil => intro res p; simp [prod_form_aux, poly_prod_form]
  | cons x rest ih =>
    intro res p
    rw [prod_form_aux, ih, poly_prod_form]
    ring

theorem eval_poly_at_append (a b : List F) (z : F) :
    eval_poly_at (a ++ b) z = eval_poly_at a z + z ^ a.length * eval_poly_at b z := by
  induction a with
  | nil => simp [eval_poly_at]
  | cons c cs ih =>
    simp only [List.cons_append, eval_poly_at, List.append_eq, List.length_cons, pow_succ]
    rw [ih]
    ring

theorem eval_poly_at_map_mul (l : List F) (s z : F) :
    eval_poly_at (l.map (fun c => c * s)) z = eval_poly_at l z * s := by
  induction l with
  | nil => simp [eval_poly_at]
  | cons c cs ih =>
    simp only [List.map_cons, eval_poly_at, ih]
    ring

theorem poly_coeffs_aux_eval (t : List F) :
    ∀ (coeffs : List F) (p z : F),
      eval_poly_at (poly_coeffs_aux t coeffs p) z
        = eval_poly_at coeffs z * poly_prod_form t (p * z ^ coeffs.length) := by
  induction t with
  | nil => intro coeffs p z; simp [poly_coeffs_aux, poly_prod_form]
  | cons x rest ih =>
    intro coeffs p z
    rw [poly_coeffs_aux, ih, eval_poly_at_append, eval_poly_at_map_mul]
    have hlen : (coeffs ++ coeffs.map (fun c => c * (x * p))).length
        = coeffs.length + coeffs.length := by simp
    rw [hlen, poly_prod_form]
    have harg : p * p * z ^ (coeffs.length + coeffs.length)
        = (p * z ^ coeffs.length) * (p * z ^ coeffs.length) := by
      rw [pow_add]; ring
    rw [harg]
    ring

theorem poly_coeffs_aux_length (t : List F) :
    ∀ (coeffs : List F) (p : F),
      (poly_coeffs_aux t coeffs p).length = coeffs.length * 2 ^ t.length := by
  induction t with
  | nil => intro coeffs p; simp [poly_coeffs_aux]
  | cons x rest ih =>
    intro coeffs p
    rw [poly_coeffs_aux, ih]
    simp only [List.length_append, List.length_map, List.length_cons, pow_succ]
    ring

theorem polynomial_coefficients_length (t : List F) (r : F) :
    (polynomial_coefficients_from_transcript t r).length = 2 ^ t.length := by
  rw [polynomial_coefficients_from_transcript, poly_coeffs_aux_length]
  simp

/-- Claim C5: for every non-empty challenge transcript `t`, every shift `r`
and every evaluation point `z`, evaluating the coefficient vector returned by
`polynomial_coefficients_from_transcript t r` at `z` equals
`polynomial_evaluation_product_form_from_transcript t z r`. -/
theorem C5_poly_coefficients_eval_roundtrip (t : List F) (r z : F) (ht : t ≠ []) :
    eval_poly_at (polynomial_coefficients_from_transcript t r) z
      = polynomial_evaluation_product_form_from_transcript t z r := by
  match t, ht with
  | x :: rest, _ =>
    rw [polynomial_coefficients_from_transcript, poly_coeffs_aux_eval,
      polynomial_evaluation_product_form_from_transcript, prod_form_aux_eq, poly_prod_form]
    simp only [eval_poly_at, List.length_cons, List.length_nil, pow_one, mul_zero,
      add_zero, one_mul, zero_add]
    rw [show z * r = r * z from mul_comm z r]

/-- Witness for C5 at the concrete transcript `[2, 3]`, shift `5`, point `7`
over `ℚ`. -/
theorem C5_poly_coefficients_eval_roundtrip_witness :
    eval_poly_at (polynomial_coefficients_from_transcript [(2 : ℚ), 3] 5) 7
      = polynomial_evaluation_product_form_from_transcript [(2 : ℚ), 3] 7 5 :=
  C5_poly_coefficients_eval_roundtrip [(2 : ℚ), 3] 5 7 (by decide)

end PolyUtils

section Commit

variable {F : Type} [Field F] {G1 G2 Gt : Type} [CommMonoid Gt]

/-- Commitment key in G2, two parallel power vectors (spec section 3,
`CommitmentKeyV`; commit.rs is not under src/). -/
structure VKey (G2 : Type) where
  a : List G2
  b : List G2

/-- Commitment key in G1, two parallel power vectors (spec section 3,
`CommitmentKeyW`). -/
structure WKey (G1 : Type) where
  a : List G1
  b : List G1

/-- Modelled from the spec: `commit::pair` (commit.rs is not under src/).
Spec section 4.B: `T = ∏ e(A[i], v.a[i]) * ∏ e(w.a[i], B[i])` and `U` is the
same with the `.b` vectors. The bilinear pairing is the abstract parameter
`e1 : G1 → G2 → Gt`. -/
def commit_pair (e1 : G1 → G2 → Gt) (v : VKey G2) (w : WKey G1)
    (A : List G1) (B : List G2) : Gt × Gt :=
  ((List.zipWith e1 A v.a).prod * (List.zipWith e1 w.a B).prod,
   (List.zipWith e1 A v.b).prod * (List.zipWith e1 w.b B).prod)

/-- Modelled from the spec: `VKey::scale` (commit.rs is not under src/).
Spec section 3 invariant 2: scaling `v` by the scalar vector `s` raises each
power elementwise, `v.a[i] ^ s[i]`, identically for `v.b`; the G2 scalar
action is the abstract parameter `smul2`. -/
def VKey.scale (smul2 : F → G2 → G2) (v : VKey G2) (s : List F) : VKey G2 :=
  ⟨List.zipWith (fun vi si => smul2 si vi) v.a s,
   List.zipWith (fun vi si => smul2 si vi) v.b s⟩

/-- Modelled from the spec: `structured_scalar_power` (defined in the module
root, which is not under src/). Spec section 4.G step 4: the powers
`(1, r, r^2, ..., r^(n-1))`. -/
def structured_scalar_power (n : ℕ) (r : F) : List F :=
  (List.range n).map (fun i => r ^ i)

theorem zip_commit_cancel (e1 : G1 → G2 → Gt) (smul1 : F → G1 → G1) (smul2 : F → G2 → G2)
    (hcompat : ∀ (s : F) (a : G1) (v : G2), e1 (smul1 s a) v = e1 a (smul2 s v))
    (hmul : ∀ (s t : F) (v : G2), smul2 s (smul2 t v) = smul2 (s * t) v)
    (hone : ∀ v : G2, smul2 1 v = v) :
    ∀ (A : List G1) (va : List G2) (rv : List F),
      (∀ s ∈ rv, s ≠ 0) → A.length ≤ rv.length →
      List.zipWith e1 (List.zipWith (fun ai ri => smul1 ri ai) A rv)
          (List.zipWith (fun vi si => smul2 si vi) va (rv.map (fun q => q⁻¹)))
        = List.zipWith e1 A va := by
  intro A
  induction A with
  | nil => intro va rv h hlen; simp
  | cons a As ih =>
    intro va rv h hlen
    cases va with
    | nil => simp
    | cons v vas =>
      cases rv with
      | nil => simp at hlen
      | cons s rs =>
        have hs : s ≠ 0 := h s (List.mem_cons_self _ _)
        simp only [List.map_cons, List.zipWith_cons_cons]
        rw [ih vas rs (fun q hq => h q (List.mem_cons_of_mem _ hq))
          (by simpa using Nat.le_of_succ_le_succ (by simpa using hlen))]
        rw [hcompat, hmul, mul_inv_cancel₀ hs, hone]

/-- Claim C6: for equal-length vectors `A`, `B`, commitment keys `v`, `w` of
the same length `n`, and an invertible scalar `r`, committing to `A` rescaled
by the powers of `r` under the key `v` rescaled by the inverse powers of `r`
gives the same pair commitment as committing to `A`, `B` under `v`, `w`.
This is the identity asserted by `aggregate_proofs` at prove.rs line 100
between `com_ab` and the recomputed commitment (`vkey_r_inv`, `a_r`,
prove.rs lines 74-100). The pairing and the two scalar actions are abstract,
constrained only by the bilinearity laws `hcompat`, `hmul`, `hone`. -/
theorem C6_commit_pair_rescaling_invariant
    (e1 : G1 → G2 → Gt) (smul1 : F → G1 → G1) (smul2 : F → G2 → G2)
    (hcompat : ∀ (s : F) (a : G1) (v : G2), e1 (smul1 s a) v = e1 a (smul2 s v))
    (hmul : ∀ (s t : F) (v : G2), smul2 s (smul2 t v) = smul2 (s * t) v)
    (hone : ∀ v : G2, smul2 1 v = v)
    (n : ℕ) (A : List G1) (B : List G2) (v : VKey G2) (w : WKey G1)
    (hA : A.length = n) (hB : B.length = n)
    (hva : v.a.length = n) (hvb : v.b.length = n)
    (hwa : w.a.length = n) (hwb : w.b.length = n)
    (r : F) (hr : r ≠ 0) :
    commit_pair e1 (VKey.scale smul2 v ((structured_scalar_power n r).map (fun q => q⁻¹))) w
        (List.zipWith (fun ai ri => smul1 ri ai) A (structured_scalar_power n r)) B
      = commit_pair e1 v w A B := by
  have hnz : ∀ s ∈ structured_scalar_power n r, s ≠ 0 := by
    intro s hs
    simp only [structured_scalar_power, List.mem_map, List.mem_range] at hs
    obtain ⟨i, _, rfl⟩ := hs
    exact pow_ne_zero i hr
  have hplen : (structured_scalar_power n r).length = n := by
    simp [structured_scalar_power]
  have hAlen : A.length ≤ (structured_scalar_power n r).length := by
    rw [hplen, hA]
  simp only [commit_pair, VKey.scale, Prod.mk.injEq]
  constructor
  · rw [zip_commit_cancel e1 smul1 smul2 hcompat hmul hone A v.a _ hnz hAlen]
  · rw [zip_commit_cancel e1 smul1 smul2 hcompat hmul hone A v.b _ hnz hAlen]

/-- Witness for C6 over `ℚ` in discrete-log form: `G1 = G2 = Gt = ℚ`,
pairing `e1 a v = a * v`, both scalar actions multiplication, `n = 2`,
`r = 2`. -/
theorem C6_commit_pair_rescaling_invariant_witness :
    commit_pair (fun a v => a * v)
        (VKey.scale (fun s v => s * v) ⟨[(7 : ℚ), 9], [11, 13]⟩
          ((structured_scalar_power 2 (2 : ℚ)).map (fun q => q⁻¹)))
        ⟨[(17 : ℚ), 19], [23, 29]⟩
        (List.zipWith (fun ai ri => (fun s a => s * a) ri ai) [(3 : ℚ), 4]
          (structured_scalar_power 2 (2 : ℚ)))
        [(5 : ℚ), 6]
      = commit_pair (fun a v => a * v) ⟨[(7 : ℚ), 9], [11, 13]⟩ ⟨[(17 : ℚ), 19], [23, 29]⟩
          [(3 : ℚ), 4] [(5 : ℚ), 6] :=
  C6_commit_pair_rescaling_invariant (fun a v => a * v) (fun s a => s * a) (fun s v => s * v)
    (fun s a v => by ring) (fun s t v => by ring) (fun v => by ring)
    2 [(3 : ℚ), 4] [(5 : ℚ), 6] ⟨[(7 : ℚ), 9], [11, 13]⟩ ⟨[(17 : ℚ), 19], [23, 29]⟩
    (by decide) (by decide) (by decide) (by decide) (by decide) (by decide)
    2 (by norm_num)

end Commit

section GipaChallenges

variable {F : Type} [Field F] [DecidableEq F] {Fqk : Type}

/-- Committed values of one GIPA-TIPP round: the cross commitments
`c_L = (t_l, u_l)`, `c_R = (t_r, u_r)` and the cross inner products
`z_l, z_r`. These are the values the prover pushes into `comms` and `z_vec`
(prove.rs lines 301-302) and that the verifier replays from the proof
(verify.rs line 350). -/
structure TippRound (Fqk : Type) where
  t_l : Fqk
  u_l : Fqk
  t_r : Fqk
  u_r : Fqk
  z_l : Fqk
  z_r : Fqk

/-- Prover-side challenge derivation of `gipa_tipp` (prove.rs lines 243-267,
one entry of the output lists per round). The abstract parameter `hash`
stands for `fr_from_u128 (Sha256 (serialize (nonce, transcript, t_l, u_l,
t_r, u_r, z_r, z_l)))`, in that serialization order; `hex` states that for
every hash input some nonce yields a nonzero (hence invertible) field
element, so the retry loop exits at the least such nonce (`Nat.find`). The
loop body breaks with the pair `(c_inv, c)` — hash inverse first — which the
caller destructures as `(c, c_inv)`: the stored challenge is the inverse of
the hash output. The chained transcript is `challenges.last()`, i.e. the
first component of the previously stored pair, starting from `Fr::zero()`. -/
def gipa_tipp_challenges (hash : ℕ → F → TippRound Fqk → F)
    (hex : ∀ (prev : F) (rd : TippRound Fqk), ∃ n, hash n prev rd ≠ 0) :
    F → List (TippRound Fqk) → List (F × F)
  | _, [] => []
  | prev, rd :: rest =>
    let c := hash (Nat.find (hex prev rd)) prev rd
    (c⁻¹, c) :: gipa_tipp_challenges hash hex c⁻¹ rest

/-- Verifier-side challenge derivation of `gipa_verify_tipp` (verify.rs lines
342-381): the same retry loop replayed over the committed round values taken
from the proof, hashing `(nonce, transcript, t_l, u_l, t_r, u_r, z_r, z_l)`
in the same serialization order, applying the same `(c_inv, c)` swap before
storage and chaining the transcript through the stored challenge. -/
def gipa_verify_tipp_challenges (hash : ℕ → F → TippRound Fqk → F)
    (hex : ∀ (prev : F) (rd : TippRound Fqk), ∃ n, hash n prev rd ≠ 0) :
    F → List (TippRound Fqk) → List (F × F)
  | _, [] => []
  | prev, rd :: rest =>
    let c := hash (Nat.find (hex prev rd)) prev rd
    (c⁻¹, c) :: gipa_verify_tipp_challenges hash hex c⁻¹ rest

/-- Raw 128-bit hash outputs of the successive rounds (before the swap),
chained exactly as the stored challenges are: the transcript fed into the
next round is the inverse of the previous raw output, because the stored
challenge is that inverse. -/
def gipa_tipp_raw_challenges (hash : ℕ → F → TippRound Fqk → F)
    (hex : ∀ (prev : F) (rd : TippRound Fqk), ∃ n, hash n prev rd ≠ 0) :
    F → List (TippRound Fqk) → List F
  | _, [] => []
  | prev, rd :: rest =>
    let c := hash (Nat.find (hex prev rd)) prev rd
    c :: gipa_tipp_raw_challenges hash hex c⁻¹ rest

/-- Claim C7: the hash output and its inverse are swapped before storage —
the stored `challenges` list consists of the inverses of the raw hash
outputs and the stored `challenges_inv` list of the raw hash outputs
themselves — and the prover (`gipa_tipp`) and the verifier
(`gipa_verify_tipp`), replaying the same committed round values, derive
identical challenge pairs in the same insertion order. -/
theorem C7_challenge_swap_and_replay_agreement (hash : ℕ → F → TippRound Fqk → F)
    (hex : ∀ (prev : F) (rd : TippRound Fqk), ∃ n, hash n prev rd ≠ 0)
    (prev : F) (rounds : List (TippRound Fqk)) :
    gipa_verify_tipp_challenges hash hex prev rounds
        = gipa_tipp_challenges hash hex prev rounds
      ∧ (gipa_tipp_challenges hash hex prev rounds).map Prod.fst
        = (gipa_tipp_raw_challenges hash hex prev rounds).map (fun c => c⁻¹)
      ∧ (gipa_tipp_challenges hash hex prev rounds).map Prod.snd
        = gipa_tipp_raw_challenges hash hex prev rounds := by
  refine ⟨?_, ?_, ?_⟩
  · induction rounds generalizing prev with
    | nil => rfl
    | cons rd rest ih =>
      simp only [gipa_verify_tipp_challenges, gipa_tipp_challenges, ih]
  · induction rounds generalizing prev with
    | nil => rfl
    | cons rd rest ih =>
      simp only [gipa_tipp_challenges, gipa_tipp_raw_challenges, List.map_cons, ih]
  · induction rounds generalizing prev with
    | nil => rfl
    | cons rd rest ih =>
      simp only [gipa_tipp_challenges, gipa_tipp_raw_challenges, List.map_cons, ih]

/-- Witness for C7 over `ℚ` with a one-round transcript and the constant
hash `1` (any nonce works, so the retry exits at nonce 0). -/
theorem C7_challenge_swap_and_replay_agreement_witness :
    gipa_verify_tipp_challenges (fun _ _ _ => (1 : ℚ)) (fun _ _ => ⟨0, one_ne_zero⟩) 0
          [⟨6, 7, 8, 9, 10, 11⟩]
        = gipa_tipp_challenges (fun _ _ _ => (1 : ℚ)) (fun _ _ => ⟨0, one_ne_zero⟩) 0
          [⟨6, 7, 8, 9, 10, 11⟩]
      ∧ (gipa_tipp_challenges (fun _ _ _ => (1 : ℚ)) (fun _ _ => ⟨0, one_ne_zero⟩) 0
          [⟨6, 7, 8, 9, 10, 11⟩]).map Prod.fst
        = (gipa_tipp_raw_challenges (fun _ _ _ => (1 : ℚ)) (fun _ _ => ⟨0, one_ne_zero⟩) 0
          [⟨6, 7, 8, 9, 10, 11⟩]).map (fun c => c⁻¹)
      ∧ (gipa_tipp_challenges (fun _ _ _ => (1 : ℚ)) (fun _ _ => ⟨0, one_ne_zero⟩) 0
          [⟨6, 7, 8, 9, 10, 11⟩]).map Prod.snd
        = gipa_tipp_raw_challenges (fun _ _ _ => (1 : ℚ)) (fun _ _ => ⟨0, one_ne_zero⟩) 0
          [⟨6, 7, 8, 9, 10, 11⟩] :=
  C7_challenge_swap_and_replay_agreement (fun _ _ _ => (1 : ℚ))
    (fun _ _ => ⟨0, one_ne_zero⟩) 0 [⟨6, 7, 8, 9, 10, 11⟩]

end GipaChallenges

section Aggregate

variable {F : Type} [Field F] [DecidableEq F]

/-- Semantics of `usize::is_power_of_two` (used at prove.rs lines 129 and
581): true exactly when the length is `2^k` for some `k`. Every such `k` is
below `n + 1`, so a bounded search is a faithful executable rendering. -/
def is_power_of_two (n : ℕ) : Bool :=
  (List.range (n + 1)).any (fun k => n == 2 ^ k)

theorem is_power_of_two_pow (k : ℕ) : is_power_of_two (2 ^ k) = true := by
  simp only [is_power_of_two, List.any_eq_true, List.mem_range, beq_iff_eq]
  exact ⟨k, Nat.lt_succ_of_lt (Nat.lt_two_pow k), rfl⟩

/-- Modelled from the spec: `VKey::has_correct_len` / `WKey::has_correct_len`
(commit.rs is not under src/). Spec section 4.B edge policy: a key is
well-sized when its length equals the expected `n`. -/
def has_correct_len (key_len n : ℕ) : Bool := key_len == n

/-- `Field::inverse` of the ff crate: `None` exactly on zero. -/
def fr_inverse (x : F) : Option F := if x = 0 then none else some x⁻¹

/-- Batching randomness of the prover, prove.rs lines 53-69. The loop
serializes `(nonce, com_ab.0, com_ab.1, com_c.0, com_c.1)`, but the SHA-256
`from_random_bytes` break (lines 63-65) is commented out in the source and
the body unconditionally executes `break E::Fr::one()` (line 66): the result
is the constant one, independent of the commitments. -/
def aggregate_r {Gt : Type} (com_ab com_c : Gt × Gt) : F := 1

/-- Batching randomness of the verifier, verify.rs lines 42-60: same stub,
the hash-based break (lines 52-57) is commented out and the loop breaks with
`E::Fr::one()` (line 58) on its first iteration. -/
def verify_r {Gt : Type} (com_ab com_c : Gt × Gt) : F := 1

/-- Claim C3 evaluated on the code: in both `aggregate_proofs` and
`verify_aggregate_proof` the batching randomness is the constant field
element one for every pair of commitments — it is not derived from the
serialized commitments by the SHA-256 discipline, which is commented out in
the source. -/
theorem C3_batching_randomness_is_constant_one {Gt : Type} :
    ∀ com_ab com_c com_abv com_cv : Gt × Gt,
      aggregate_r (F := F) com_ab com_c = 1 ∧ verify_r (F := F) com_abv com_cv = 1 :=
  fun _ _ _ _ => ⟨rfl, rfl⟩

/-- Control-flow model of `prove_tipp` (prove.rs lines 115-187), tracking the
observable outcome only (the proof payload is `Unit`, since for inputs that
pass the guards no `Ok` value is ever produced):
* lines 129-131: `MalformedProofs` when the length is not a power of two or
  the two vectors differ in length;
* line 133: `gipa_tipp` — its while loop halves `m_a` each round and its
  Fiat-Shamir retry loops exit at the first invertible hash (modelled in the
  GIPA challenge section, assumed here to find one);
* line 140: `r_shift.inverse().unwrap()` aborts when `r_shift = 0`;
* lines 143-160, the KZG challenge-point loop: when `n = 1` there are no
  GIPA rounds, so `challenges.first().unwrap()` (line 147) aborts; when
  `n ≥ 2` the loop body has no break statement at all — the hash-based break
  (lines 153-158) is commented out, leaving only `counter_nonce += 1` — so
  the loop never exits. -/
def prove_tipp (a_len b_len : ℕ) (r_shift : F) : Outcome (Except SynthesisError Unit) :=
  if !(is_power_of_two a_len) || (a_len != b_len) then .ret (.error .MalformedProofs)
  else if r_shift = 0 then .panic
  else if a_len = 1 then .panic
  else .diverge

/-- Control-flow model of `prove_mipp` (prove.rs lines 569-630), analogous to
`prove_tipp`: guard at lines 581-583 (`MalformedProofs`); the stored MIPP
challenges are inverses of invertible hash outputs, so the
`challenges_inv` unwraps at line 593 cannot abort; the KZG challenge loop at
lines 598-614 dereferences `challenges.first().unwrap()` (line 603, aborting
when `n = 1`) and otherwise never exits, its hash-based break (lines
607-612) being commented out. -/
def prove_mipp (c_len r_len : ℕ) : Outcome (Except SynthesisError Unit) :=
  if !(is_power_of_two c_len) || (c_len != r_len) then .ret (.error .MalformedProofs)
  else if c_len = 1 then .panic
  else .diverge

/-- Control-flow model of `aggregate_proofs` (prove.rs lines 22-110):
* lines 33-36: `MalformedSrs` when either commitment key length differs from
  the number of proofs;
* lines 43-48: the commitments terminate; lines 53-69: `r = 1`
  (see `aggregate_r`); lines 72-86: the power vectors, their inverses (all
  ones, no unwrap can abort) and the rescalings terminate;
* line 88: `prove_tipp` with `r = 1`; line 89: `prove_mipp`; both evaluated
  strictly before the rest;
* lines 95-100: inner products and the `assert_eq` on the recomputed
  commitment, which holds (with `r = 1` the rescalings are identities; the
  general identity is the C6 theorem), so no abort;
* lines 102-109: the `?` operators propagate the first error,
  `tipa_proof_ab` first. -/
def aggregate_proofs (vkey_len wkey_len n_proofs : ℕ) :
    Outcome (Except SynthesisError Unit) :=
  if !(has_correct_len vkey_len n_proofs) || !(has_correct_len wkey_len n_proofs) then
    .ret (.error .MalformedSrs)
  else
    (prove_tipp (F := F) n_proofs n_proofs 1).bind (fun tab =>
      (prove_mipp n_proofs n_proofs).bind (fun tc =>
        .ret (tab.bind (fun _ => tc))))

/-- Claim C1 evaluated on the code: for every batch size `n = 2^k` with
`1 ≤ k ≤ 10` and matching key lengths, `aggregate_proofs` never returns — it
diverges inside the KZG challenge loop of `prove_tipp` — so the composition
`verify_aggregate_proof ∘ aggregate_proofs` cannot return `Ok(true)` on any
honest batch. -/
theorem C1_honest_batch_aggregation_diverges (k n : ℕ) (hk1 : 1 ≤ k) (hk10 : k ≤ 10)
    (hn : n = 2 ^ k) :
    aggregate_proofs (F := F) n n n = Outcome.diverge := by
  subst hn
  have hp : is_power_of_two (2 ^ k) = true := is_power_of_two_pow k
  have hne1 : 2 ^ k ≠ 1 := by
    have h2 : (2 : ℕ) ^ 1 ≤ 2 ^ k := Nat.pow_le_pow_right (by norm_num) hk1
    omega
  simp [aggregate_proofs, has_correct_len, prove_tipp, prove_mipp, Outcome.bind,
    hp, hne1, one_ne_zero]

/-- Witness for C1 at `k = 1`, `n = 2` over `ℚ`. -/
theorem C1_honest_batch_aggregation_diverges_witness :
    aggregate_proofs (F := ℚ) 2 2 2 = Outcome.diverge :=
  C1_honest_batch_aggregation_diverges 1 2 (by decide) (by decide) (by decide)

/-- Claim C2 evaluated on the code: the KZG challenge-point derivation loops
of `prove_tipp` and `prove_mipp` never exit on any input that reaches them
with at least two elements — their break statements are commented out — so
the prover diverges instead of returning a challenge. -/
theorem C2_prover_kzg_challenge_loops_diverge (n : ℕ) (r_shift : F)
    (hpow : is_power_of_two n = true) (hn : 2 ≤ n) (hr : r_shift ≠ 0) :
    prove_tipp n n r_shift = Outcome.diverge ∧ prove_mipp n n = Outcome.diverge := by
  have hne1 : n ≠ 1 := by omega
  constructor
  · simp [prove_tipp, hpow, hne1, hr]
  · simp [prove_mipp, hpow, hne1]

/-- Witness for C2 at `n = 2`, `r_shift = 1` over `ℚ`. -/
theorem C2_prover_kzg_challenge_loops_diverge_witness :
    prove_tipp (F := ℚ) 2 2 1 = Outcome.diverge ∧ prove_mipp 2 2 = Outcome.diverge :=
  C2_prover_kzg_challenge_loops_diverge 2 1 (by decide) (by decide) one_ne_zero

end Aggregate

section KzgOpening

variable {F : Type} [Field F] [DecidableEq F]

/-- Modelled from the spec: subtraction of the constant polynomial `[y]`
from a dense coefficient list (`DensePolynomial` arithmetic lives in
poly.rs, which is not under src/). -/
def sub_constant (f : List F) (y : F) : List F :=
  match f with
  | [] => [-y]
  | c :: cs => (c - y) :: cs

/-- One step of synthetic division by `X - z`, processing the coefficients
from the highest degree down with carry `c`: the carry is emitted as a
quotient coefficient and updated to `a + z * c`. -/
def synth_div_aux (z : F) : F → List F → List F × F
  | c, [] => ([], c)
  | c, a :: rest =>
    let q := synth_div_aux z (a + z * c) rest
    (c :: q.1, q.2)

/-- Modelled from the spec: quotient of a dense polynomial (lowest degree
first) by the linear divisor `X - z`, spec section 4.F step 3 (the
`DensePolynomial` division operator of poly.rs is not under src/); the
remainder is dropped, as the spec notes it is zero by construction. -/
def poly_div_by_linear (f : List F) (z : F) : List F :=
  match f.reverse with
  | [] => []
  | a :: rest => ((synth_div_aux z a rest).1).reverse

/-- `prove_commitment_key_kzg_opening` (prove.rs lines 452-512). The two
multi-scalar multiplications against the precomputed alpha and beta power
tables are the abstract parameters `msm_alpha`, `msm_beta` applied to the
quotient coefficient list (zero-padded by the getter up to the table size,
which does not affect the modelled value). The length guard at lines 464-466
compares the SRS table size with the coefficient count of the transcript
polynomial. -/
def prove_commitment_key_kzg_opening {G : Type} (msm_alpha msm_beta : List F → G)
    (srs_powers_len : ℕ) (transcript : List F) (r_shift kzg_challenge : F) :
    Except SynthesisError (G × G) :=
  let vkey_poly := polynomial_coefficients_from_transcript transcript r_shift
  if srs_powers_len ≠ vkey_poly.length then .error .MalformedSrs
  else
    let vkey_poly_z :=
      polynomial_evaluation_product_form_from_transcript transcript kzg_challenge r_shift
    let quotient := poly_div_by_linear (sub_constant vkey_poly vkey_poly_z) kzg_challenge
    .ok (msm_alpha quotient, msm_beta quotient)

/-- Claim C8: `aggregate_proofs` returns `Err(MalformedSrs)` whenever the
vkey or wkey length differs from the number of proofs (prove.rs lines
33-36), and `prove_commitment_key_kzg_opening` returns `Err(MalformedSrs)`
whenever the SRS power-table length differs from the length `2^l` of the
coefficient vector built from the transcript (prove.rs lines 464-466); in
these cases no proof value is produced. -/
theorem C8_malformed_srs_guards {G : Type} :
    (∀ vkey_len wkey_len n_proofs : ℕ, vkey_len ≠ n_proofs ∨ wkey_len ≠ n_proofs →
        aggregate_proofs (F := F) vkey_len wkey_len n_proofs
          = Outcome.ret (Except.error SynthesisError.MalformedSrs))
    ∧ (∀ (msm_alpha msm_beta : List F → G) (srs_powers_len : ℕ)
        (transcript : List F) (r_shift kzg_challenge : F),
        srs_powers_len ≠ 2 ^ transcript.length →
        prove_commitment_key_kzg_opening msm_alpha msm_beta srs_powers_len
            transcript r_shift kzg_challenge
          = Except.error SynthesisError.MalformedSrs) := by
  constructor
  · intro vkey_len wkey_len n_proofs h
    rcases h with h | h
    · have hb : (vkey_len == n_proofs) = false := beq_eq_false_iff_ne.mpr h
      simp [aggregate_proofs, has_correct_len, hb]
    · have hb : (wkey_len == n_proofs) = false := beq_eq_false_iff_ne.mpr h
      simp [aggregate_proofs, has_correct_len, hb]
  · intro msm_alpha msm_beta srs_powers_len transcript r_shift kzg_challenge h
    rw [prove_commitment_key_kzg_opening]
    simp only [polynomial_coefficients_length]
    simp [h]

/-- Witness for C8 over `ℚ`: key lengths `0 ≠ 1` and SRS table size
`0 ≠ 2^0`. -/
theorem C8_malformed_srs_guards_witness :
    aggregate_proofs (F := ℚ) 0 0 1 = Outcome.ret (Except.error SynthesisError.MalformedSrs)
    ∧ prove_commitment_key_kzg_opening (fun _ => (0 : ℚ)) (fun _ => (0 : ℚ)) 0
        ([] : List ℚ) 0 0
      = Except.error SynthesisError.MalformedSrs :=
  ⟨(C8_malformed_srs_guards (G := ℚ)).1 0 0 1 (Or.inl (by decide)),
   (C8_malformed_srs_guards (G := ℚ)).2 (fun _ => (0 : ℚ)) (fun _ => (0 : ℚ)) 0
     ([] : List ℚ) 0 0 (by decide)⟩

end KzgOpening

section Verify

variable {F : Type} [Field F] [DecidableEq F]

/-- Control-flow model of `verify_aggregate_proof` (verify.rs lines 25-207):
* lines 42-60: `r = 1` (see `verify_r`);
* lines 62-66: for each row of public inputs, `MalformedVerifyingKey` when
  its length plus one differs from `|pvk.ic|` — returned before the
  `rayon::scope` at line 69, hence before any pairing or accumulator work,
  which is why the model is independent of `rest` on this path;
* lines 106-109: `r_sum = (r^n - 1) * (r - 1).inverse().unwrap()` with
  `n = public_inputs.len()`; the `unwrap` aborts when `r - 1 = 0`;
* `rest` abstracts the remaining pairing and accumulator work of the scope
  (lines 69-206) as a function of `r_sum`. -/
def verify_aggregate_proof {Gt : Type} (com_ab com_c : Gt × Gt) (ic_len : ℕ)
    (pub_lens : List ℕ) (rest : F → Outcome (Except SynthesisError Bool)) :
    Outcome (Except SynthesisError Bool) :=
  let r : F := verify_r com_ab com_c
  if pub_lens.any (fun l => l + 1 != ic_len) then .ret (.error .MalformedVerifyingKey)
  else
    match fr_inverse (r - 1) with
    | none => .panic
    | some b => rest ((r ^ pub_lens.length - 1) * b)

/-- Claim C4: `verify_aggregate_proof` unwraps the field inverse of `r - 1`
without guarding `r = 1`; since the in-code derivation of `r` always yields
one, every input that passes the public-input length check makes the
function abort at this division instead of returning `Ok` or `Err`,
whatever the remaining verification work `rest` would have computed. -/
theorem C4_verifier_panics_after_length_check {Gt : Type} (com_ab com_c : Gt × Gt)
    (ic_len : ℕ) (pub_lens : List ℕ)
    (rest : F → Outcome (Except SynthesisError Bool))
    (hlen : ∀ l ∈ pub_lens, l + 1 = ic_len) :
    verify_aggregate_proof com_ab com_c ic_len pub_lens rest = Outcome.panic := by
  have hany : pub_lens.any (fun l => l + 1 != ic_len) = false := by
    simp only [List.any_eq_false, bne_iff_ne, ne_eq, not_not]
    exact hlen
  simp [verify_aggregate_proof, verify_r, fr_inverse, hany]

/-- Witness for C4 over `ℚ` with one public-input row of length 0 and
`|ic| = 1`. -/
theorem C4_verifier_panics_after_length_check_witness :
    verify_aggregate_proof (F := ℚ) ((), ()) ((), ()) 1 [0]
        (fun _ => Outcome.ret (Except.ok true)) = Outcome.panic :=
  C4_verifier_panics_after_length_check (F := ℚ) ((), ()) ((), ()) 1 [0]
    (fun _ => Outcome.ret (Except.ok true)) (by decide)

/-- Claim C9: whenever some row of public inputs has length such that
`|public_inputs[k]| + 1 ≠ |pvk.ic|`, `verify_aggregate_proof` returns
`Err(MalformedVerifyingKey)` — for every possible remaining pairing and
accumulator computation `rest`, i.e. before any of that work happens. -/
theorem C9_public_input_length_check {Gt : Type} (com_ab com_c : Gt × Gt)
    (ic_len : ℕ) (pub_lens : List ℕ)
    (rest : F → Outcome (Except SynthesisError Bool))
    (hbad : ∃ l ∈ pub_lens, l + 1 ≠ ic_len) :
    verify_aggregate_proof com_ab com_c ic_len pub_lens rest
      = Outcome.ret (Except.error SynthesisError.MalformedVerifyingKey) := by
  have hany : pub_lens.any (fun l => l + 1 != ic_len) = true := by
    obtain ⟨l, hl, hne⟩ := hbad
    simp only [List.any_eq_true, bne_iff_ne, ne_eq]
    exact ⟨l, hl, hne⟩
  simp [verify_aggregate_proof, hany]

/-- Witness for C9 over `ℚ` with a public-input row of length 1 against
`|ic| = 1`. -/
theorem C9_public_input_length_check_witness :
    verify_aggregate_proof (F := ℚ) ((), ()) ((), ()) 1 [1]
        (fun _ => Outcome.ret (Except.ok true))
      = Outcome.ret (Except.error SynthesisError.MalformedVerifyingKey) :=
  C9_public_input_length_check (F := ℚ) ((), ()) ((), ()) 1 [1]
    (fun _ => Outcome.ret (Except.ok true)) ⟨1, by decide, by decide⟩

end Verify

section Accumulator

variable {F : Type} [Field F] [DecidableEq F]

/-- Modelled from the spec: `PairingTuple` (accumulator.rs is not under
src/). Spec section 4.I: it holds a running Miller-loop output and a running
target constant, both in the target group, which is modelled here as the
multiplicative monoid of the field `Fqk` (the target group of a pairing is a
subgroup of the units of `Fqk`). -/
structure PairingTuple (F : Type) where
  miller : F
  constant : F
  deriving DecidableEq

/-- Modelled from the spec: the sentinel invalid tuple. Its constant is the
zero of `Fqk`, which no final exponentiation can equal (a final
exponentiation lands in the unit group), so it forces `verify` to return
false irrespective of merges, as section 4.I requires. -/
def PairingTuple.new_invalid : PairingTuple F := ⟨1, 0⟩

/-- Modelled from the spec: `merge` multiplies componentwise (section 4.I). -/
def PairingTuple.merge (t other : PairingTuple F) : PairingTuple F :=
  ⟨t.miller * other.miller, t.constant * other.constant⟩

/-- Modelled from the spec: `verify` applies the final exponentiation
(abstract parameter `final_exp`) to the merged Miller output and compares
with the merged constant (section 4.I). -/
def PairingTuple.verify (final_exp : F → F) (t : PairingTuple F) : Bool :=
  final_exp t.miller == t.constant

/-- Tail of `verify_mipp` after the GIPA fold (verify.rs lines 617-633): the
scalar-side base check recomputes `Z = final_c ^ final_r` as a one-element
multi-exponentiation (`smul` abstracts the G1 scalar action) and compares it
with the folded `com_z`; on mismatch the invalid sentinel is returned at
line 632, before the KZG opening and commitment pairing checks of lines
635-674, which are abstracted as the parameter `rest`. -/
def verify_mipp_final_check {G : Type} [DecidableEq G] (smul : F → G → G)
    (com_z final_c : G) (final_r : F) (rest : PairingTuple F) : PairingTuple F :=
  let final_z := smul final_r final_c
  if final_z = com_z then rest else PairingTuple.new_invalid

theorem foldl_merge_constant_zero (ts : List (PairingTuple F)) :
    ∀ seed : PairingTuple F, seed.constant = 0 →
      (ts.foldl PairingTuple.merge seed).constant = 0 := by
  induction ts with
  | nil => intro seed h; simpa using h
  | cons t rest ih =>
    intro seed h
    simp only [List.foldl_cons]
    exact ih _ (by simp [PairingTuple.merge, h])

theorem mem_invalid_foldl_constant_zero (ts : List (PairingTuple F)) :
    ∀ seed : PairingTuple F, PairingTuple.new_invalid ∈ ts →
      (ts.foldl PairingTuple.merge seed).constant = 0 := by
  induction ts with
  | nil => intro seed h; cases h
  | cons t rest ih =>
    intro seed h
    simp only [List.foldl_cons]
    rcases List.mem_cons.mp h with h1 | h2
    · subst h1
      exact foldl_merge_constant_zero rest _
        (by simp [PairingTuple.merge, PairingTuple.new_invalid])
    · exact ih _ h2

/-- Claim C10: if the MIPP scalar-side check `final_c ^ final_r = Z` fails,
`verify_mipp` returns the invalid sentinel tuple immediately — whatever its
KZG and commitment pairing checks (`rest`) would have produced — and any
accumulator obtained by merging a list of tuples containing that sentinel
into any seed fails `verify` for every final exponentiation whose outputs
are units (nonzero). -/
theorem C10_mipp_scalar_check_sentinel {G : Type} [DecidableEq G] :
    (∀ (smul : F → G → G) (com_z final_c : G) (final_r : F) (rest : PairingTuple F),
        smul final_r final_c ≠ com_z →
        verify_mipp_final_check smul com_z final_c final_r rest = PairingTuple.new_invalid)
    ∧ (∀ final_exp : F → F, (∀ x, final_exp x ≠ 0) →
        ∀ (seed : PairingTuple F) (ts : List (PairingTuple F)),
          PairingTuple.new_invalid ∈ ts →
          PairingTuple.verify final_exp (ts.foldl PairingTuple.merge seed) = false) := by
  constructor
  · intro smul com_z final_c final_r rest h
    simp [verify_mipp_final_check, h]
  · intro final_exp hfe seed ts hmem
    have hc : (ts.foldl PairingTuple.merge seed).constant = 0 :=
      mem_invalid_foldl_constant_zero ts seed hmem
    simp only [PairingTuple.verify, hc]
    exact beq_eq_false_iff_ne.mpr (hfe _)

/-- Witness for C10 over `ℚ` with `G = ℚ`, scalar action multiplication,
`final_c ^ final_r = 1 ≠ 0 = Z`, and the constant final exponentiation 1. -/
theorem C10_mipp_scalar_check_sentinel_witness :
    verify_mipp_final_check (fun s g => s * g) (0 : ℚ) 1 1 ⟨1, 1⟩
        = PairingTuple.new_invalid
    ∧ PairingTuple.verify (fun _ => (1 : ℚ))
        ([PairingTuple.new_invalid, ⟨2, 3⟩].foldl PairingTuple.merge ⟨1, 1⟩) = false :=
  ⟨(C10_mipp_scalar_check_sentinel (F := ℚ) (G := ℚ)).1 (fun s g => s * g) 0 1 1 ⟨1, 1⟩
      (by norm_num),
   (C10_mipp_scalar_check_sentinel (F := ℚ) (G := ℚ)).2 (fun _ => (1 : ℚ))
      (fun x => one_ne_zero) ⟨1, 1⟩ [PairingTuple.new_invalid, ⟨2, 3⟩]
      (List.mem_cons_self _ _)⟩

end Accumulator

end Bellperson
